import Mathlib

/-!
Verification development for the `thirtyfour_macros` `derive(Component)` core
(`src/thirtyfour_macros/src/lib.rs`): a shallow embedding of the attribute
token model, the constraint validator, the token-bag take operations, the
resolution-mode classifier, the attribute parser and the two resolver
argument compilers, together with proofs about them.

Modelling conventions:
* `proc_macro2::Literal` selector payloads are modelled by the `String` they
  print as; `u32` values are `Nat` with the `< 2 ^ 32` bound enforced where
  `base10_parse::<u32>` enforces it in the source.
* `abort!`, `panic!`, failing `assert!` and failing `expect` are all fatal in
  the source; they are modelled as the `error` side of `Except`.
-/

set_option maxRecDepth 8192

deriving instance DecidableEq for Except

/-! ## Model of the fragment of the `syn` tree that the macro inspects -/

mutual

inductive TPath where
  | mk (leading_colon : Bool) (segments : List TPathSegment)

inductive TPathSegment where
  | mk (ident : String) (arguments : TPathArguments)

inductive TPathArguments where
  | noArgs
  | angleBracketed (args : List TGenericArgument)
  | parenthesized

inductive TGenericArgument where
  | typeArg (t : TType)
  | otherArg

inductive TType where
  | path (p : TPath)
  | otherType

end

def TPath.leading_colon : TPath → Bool
  | .mk lc _ => lc

def TPath.segments : TPath → List TPathSegment
  | .mk _ s => s

def TPathSegment.ident : TPathSegment → String
  | .mk i _ => i

def TPathSegment.arguments : TPathSegment → TPathArguments
  | .mk _ a => a

/-- Model of `syn::Path::is_ident`: no leading colon, exactly one segment,
no path arguments on it, and a matching identifier. -/
def TPath.is_ident (p : TPath) (x : String) : Bool :=
  match p with
  | .mk false [.mk i .noArgs] => i == x
  | _ => false

/-- Abbreviation for the path that a bare identifier parses to. -/
def identPath (s : String) : TPath := .mk false [.mk s .noArgs]

/-- Model of `syn::Lit` restricted to the shapes the macro distinguishes. -/
inductive Lit where
  | str (value : String)
  | int (value : Nat)
  | other
  deriving DecidableEq

/-- Model of `syn::Meta` and `syn::NestedMeta` merged into one type:
`path`, `list` and `nameValue` are the `Meta` variants, `lit` is
`NestedMeta::Lit`. -/
inductive NMeta where
  | path (p : TPath)
  | list (p : TPath) (nested : List NMeta)
  | nameValue (p : TPath) (l : Lit)
  | lit (l : Lit)

/-! ## Token model -/

structure WaitOptions where
  timeout_ms : Nat
  interval_ms : Nat
  deriving DecidableEq

inductive ByToken where
  | Id (lit : String)
  | Tag (lit : String)
  | LinkText (lit : String)
  | Css (lit : String)
  | XPath (lit : String)
  | Name (lit : String)
  | Multi
  | AllowEmpty
  | First
  | IgnoreErrors
  | Description (s : String)
  | Wait (w : WaitOptions)
  | CustomFn (f : String)
  deriving DecidableEq

def ByToken.get_unique_type : ByToken → String
  | .Id _ | .Tag _ | .LinkText _ | .Css _ | .XPath _ | .Name _ => "selector"
  | .Multi => "multi"
  | .AllowEmpty => "allow_empty"
  | .First => "first"
  | .IgnoreErrors => "ignore_errors"
  | .Description _ => "description"
  | .Wait _ => "wait"
  | .CustomFn _ => "custom"

def ByToken.get_disallowed_types : ByToken → List String
  | .AllowEmpty => ["custom"]
  | .First => ["multi", "custom"]
  | .IgnoreErrors => ["custom"]
  | .Description _ => ["custom"]
  | .Wait _ => ["custom"]
  | .CustomFn _ =>
      ["multi", "first", "ignore_errors", "description", "wait", "allow_empty"]
  | _ => []

/-! ## Constraint validator (`ByTokens::validate`) -/

def dupMsg (t : String) : String :=
  s!"duplicate token \x27{t}\x27 (cannot specify multiple)"

def conflictMsg (u t : String) : String :=
  s!"cannot specify \x27{u}\x27 with \x27{t}\x27"

/-- First loop of `validate`: build the set of unique types seen so far,
failing on a repeat.  The `HashSet` is modelled as a `List String` used
only through membership. -/
def collectUnique : List ByToken → List String → Except String (List String)
  | [], unique_tokens => .ok unique_tokens
  | token :: rest, unique_tokens =>
      let t := token.get_unique_type
      if t ∈ unique_tokens then .error (dupMsg t)
      else collectUnique rest (t :: unique_tokens)

/-- Second loop of `validate`: each token's disallowed list is checked, in
order, against the full set of unique types. -/
def checkDisallowed (unique_tokens : List String) : List ByToken → Except String Unit
  | [] => .ok ()
  | token :: rest =>
      match token.get_disallowed_types.find? (fun t => decide (t ∈ unique_tokens)) with
      | some t => .error (conflictMsg token.get_unique_type t)
      | none => checkDisallowed unique_tokens rest

def validate (tokens : List ByToken) : Except String Unit :=
  match collectUnique tokens [] with
  | .error e => .error e
  | .ok unique_tokens => checkDisallowed unique_tokens tokens

/-! ## Token bag operations -/

/-- Emitted `By::…` selector expression of `take_quote`. -/
inductive ByQuote where
  | Id (lit : String)
  | Tag (lit : String)
  | LinkText (lit : String)
  | Css (lit : String)
  | XPath (lit : String)
  | Name (lit : String)
  deriving DecidableEq

/-- Selector tokens map to the `By::…` expression `take_quote` pushes into
`ret`; every other token maps to `none` and is pushed back into the bag. -/
def quoteOf : ByToken → Option ByQuote
  | .Id s => some (.Id s)
  | .Tag s => some (.Tag s)
  | .LinkText s => some (.LinkText s)
  | .Css s => some (.Css s)
  | .XPath s => some (.XPath s)
  | .Name s => some (.Name s)
  | _ => none

/-- Fatal conditions of the resolver argument compilers: the two `panic!`
branches of `take_quote`, the final `assert!(tokens.is_empty())`, and the
`proc_macro2::Ident::new` panic raised by `format_ident!` when the
formatted text is not a valid identifier. -/
inductive PanicMsg where
  | noSelectorFound
  | multipleSelectorsNotSupported
  | unrecognisedArgs (leftover : List ByToken)
  | invalidIdent (text : String)
  deriving DecidableEq

/-- Model of `ByTokens::take_quote`: selector tokens are drained into `ret`
(in order), everything else stays in the bag (in order); exactly one
selector must have been found. -/
def take_quote (tokens : List ByToken) : Except PanicMsg (ByQuote × List ByToken) :=
  match tokens.filterMap quoteOf with
  | [] => .error .noSelectorFound
  | [q] => .ok (q, tokens.filter (fun t => (quoteOf t).isNone))
  | _ => .error .multipleSelectorsNotSupported

def is_multi (tokens : List ByToken) : Bool :=
  tokens.any (fun x => match x with | .Multi => true | _ => false)

/-- Model of `ByTokens::take_one`: remove and return the first token on
which `f` fires, also returning the remaining bag. -/
def take_one {T : Type} (f : ByToken → Option T) :
    List ByToken → Option T × List ByToken
  | [] => (none, [])
  | t :: ts =>
      match f t with
      | some v => (some v, ts)
      | none =>
          let r := take_one f ts
          (r.1, t :: r.2)

def take_multi (tokens : List ByToken) : Option Bool × List ByToken :=
  take_one (fun x => match x with | .Multi => some true | _ => none) tokens

def take_first (tokens : List ByToken) : Option Bool × List ByToken :=
  take_one (fun x => match x with | .First => some true | _ => none) tokens

def take_allow_empty (tokens : List ByToken) : Option Bool × List ByToken :=
  take_one (fun x => match x with | .AllowEmpty => some true | _ => none) tokens

def take_ignore_errors (tokens : List ByToken) : Option Bool × List ByToken :=
  take_one (fun x => match x with | .IgnoreErrors => some true | _ => none) tokens

def take_description (tokens : List ByToken) : Option String × List ByToken :=
  take_one (fun x => match x with | .Description d => some d | _ => none) tokens

def take_wait_options (tokens : List ByToken) : Option WaitOptions × List ByToken :=
  take_one (fun x => match x with | .Wait w => some w | _ => none) tokens

def take_custom (tokens : List ByToken) : Option String × List ByToken :=
  take_one (fun x => match x with | .CustomFn f => some f | _ => none) tokens

/-! ## Resolution-mode classifier -/

/-- Model of the fold building `idents_of_path` in `is_multi_resolver`:
every segment identifier followed by a `:`. -/
def idents_of_path (p : TPath) : String :=
  p.segments.foldl (fun acc v => acc ++ v.ident ++ ":") ""

def vecSpellingsJoined : List String :=
  ["Vec:", "vec:Vec:", "std:vec:Vec:", "alloc:vec:Vec:"]

/-- Loop body of `is_multi_resolver`: the first generic argument that is a
`Type::Path` decides the answer (early `return`); other arguments are
skipped. -/
def firstTypePathVecCheck : List TGenericArgument → Bool
  | [] => false
  | .typeArg (.path t) :: _ =>
      vecSpellingsJoined.any (fun x => idents_of_path t == x)
  | _ :: rest => firstTypePathVecCheck rest

def is_multi_resolver (path : TPath) : Bool :=
  if path.is_ident "ElementResolverMulti" then true
  else
    match path.segments.getLast? with
    | some x =>
        if x.ident == "ElementResolver" then
          match x.arguments with
          | .angleBracketed args => firstTypePathVecCheck args
          | _ => false
        else false
    | none => false

inductive ResolutionMode where
  | Single
  | Multi
  deriving DecidableEq

/-- Mode decision of `derive_component_fn`:
`if by.is_multi() || is_multi_resolver(&p.path)` then multi else single. -/
def resolutionMode (bag : List ByToken) (p : TPath) : ResolutionMode :=
  if is_multi bag || is_multi_resolver p then .Multi else .Single

/-! ## Attribute parser -/

/-- Fatal parse-stage conditions (`abort!`/`panic!`/failed `assert!` or
`expect` in `TryFrom<Meta>`, `TryFrom<&Attribute>` and the attribute loop). -/
inductive ParseAbort where
  | unknownAttribute
  | unrecognisedToken
  | onlyByAttributesSupported
  | unrecognisedByArgumentFormat
  | timeoutTwice
  | intervalTwice
  | invalidTimeoutValue
  | invalidIntervalValue
  | waitUnknownKey
  | waitBadFormat
  | waitMissingArgs
  | validateFail (msg : String)
  deriving DecidableEq

/-- Loop of the `wait(...)` branch of `ByToken::try_from`, threading the
`timeout`/`interval` options.  The duplicate `assert!` fires before
`base10_parse`, and `base10_parse::<u32>` rejects values at or above
`2 ^ 32`. -/
def parseWaitArgs : List NMeta → Option Nat → Option Nat →
    Except ParseAbort (Option Nat × Option Nat)
  | [], t, i => .ok (t, i)
  | .nameValue k l :: rest, t, i =>
      (match l with
       | .int v =>
           if k.is_ident "timeout_ms" then
             match t with
             | some _ => .error .timeoutTwice
             | none =>
                 if v < 4294967296 then parseWaitArgs rest (some v) i
                 else .error .invalidTimeoutValue
           else if k.is_ident "interval_ms" then
             match i with
             | some _ => .error .intervalTwice
             | none =>
                 if v < 4294967296 then parseWaitArgs rest t (some v)
                 else .error .invalidIntervalValue
           else .error .waitUnknownKey
       | _ => .error .waitUnknownKey)
  | _ :: _, _, _ => .error .waitBadFormat

/-- Model of `impl TryFrom<Meta> for ByToken`.  The `NMeta.lit` case cannot
reach this function in the pipeline (`NestedMeta::Lit` is rejected in
`TryFrom<&Attribute>` first). -/
def byTokenTryFrom : NMeta → Except ParseAbort ByToken
  | .path p =>
      if p.is_ident "multi" then .ok .Multi
      else if p.is_ident "allow_empty" then .ok .AllowEmpty
      else if p.is_ident "first" then .ok .First
      else if p.is_ident "ignore_errors" then .ok .IgnoreErrors
      else .error .unknownAttribute
  | .list p nested =>
      if p.is_ident "wait" then
        match parseWaitArgs nested none none with
        | .error e => .error e
        | .ok (some t, some i) => .ok (.Wait ⟨t, i⟩)
        | .ok _ => .error .waitMissingArgs
  else .error .unknownAttribute
  | .nameValue k l =>
      (match l with
       | .str v =>
           if k.is_ident "id" then .ok (.Id v)
           else if k.is_ident "tag" then .ok (.Tag v)
           else if k.is_ident "link" then .ok (.LinkText v)
           else if k.is_ident "css" then .ok (.Css v)
           else if k.is_ident "xpath" then .ok (.XPath v)
           else if k.is_ident "name" then .ok (.Name v)
           else if k.is_ident "description" then .ok (.Description v)
           else if k.is_ident "custom" then .ok (.CustomFn v)
           else .error .unknownAttribute
       | _ => .error .unknownAttribute)
  | .lit _ => .error .unrecognisedToken

/-- Loop of `impl TryFrom<&Attribute> for ByTokens`: parse each nested
argument, push it, and validate the whole bag after every push. -/
def pushTokens (acc : List ByToken) : List NMeta → Except ParseAbort (List ByToken)
  | [] => .ok acc
  | arg :: rest =>
      match arg with
      | .lit _ => .error .unrecognisedToken
      | m =>
          match byTokenTryFrom m with
          | .error e => .error e
          | .ok tok =>
              let acc2 := acc ++ [tok]
              match validate acc2 with
              | .error e => .error (.validateFail e)
              | .ok _ => pushTokens acc2 rest

/-- Model of `impl TryFrom<&Attribute> for ByTokens`, with an `Attribute`
modelled by its `parse_meta` result. -/
def byTokensTryFrom : NMeta → Except ParseAbort (List ByToken)
  | .list p nested =>
      if p.is_ident "by" then pushTokens [] nested
      else .error .onlyByAttributesSupported
  | _ => .error .unrecognisedByArgumentFormat

/-- Outer check `attr.path.is_ident("by")` of the attribute loop. -/
def attrPathIsBy : NMeta → Bool
  | .path p => p.is_ident "by"
  | .list p _ => p.is_ident "by"
  | .nameValue p _ => p.is_ident "by"
  | .lit _ => false

/-- Attribute loop of `derive_component_fn`: every `by` attribute is parsed
into a fresh bag and overwrites `by_ident`.  A parse abort is fatal for the
whole derive. -/
def scanByAttributesAux (acc : Option (List ByToken)) :
    List NMeta → Except ParseAbort (Option (List ByToken))
  | [] => .ok acc
  | attr :: rest =>
      if attrPathIsBy attr then
        match byTokensTryFrom attr with
        | .ok x => scanByAttributesAux (some x) rest
        | .error e => .error e
      else scanByAttributesAux acc rest

def scanByAttributes (attrs : List NMeta) : Except ParseAbort (Option (List ByToken)) :=
  scanByAttributesAux none attrs

/-! ## Resolver argument compilers -/

inductive SingleResolverArgs where
  | CustomFn (f : String)
  | Opts (by_ : ByQuote) (first : Option Bool) (ignore_errors : Option Bool)
      (description : Option String) (wait : Option WaitOptions)
  deriving DecidableEq

inductive MultiResolverArgs where
  | CustomFn (f : String)
  | Opts (by_ : ByQuote) (allow_empty : Option Bool) (ignore_errors : Option Bool)
      (description : Option String) (wait : Option WaitOptions)
  deriving DecidableEq

/-- Model of `impl From<ByTokens> for SingleResolverArgs` including the
trailing `assert!(t.tokens.is_empty(), "unrecognised args: …")`. -/
def singleResolverArgsFrom (t : List ByToken) : Except PanicMsg SingleResolverArgs :=
  let c := take_custom t
  match c.1 with
  | some f =>
      if c.2.isEmpty then .ok (.CustomFn f) else .error (.unrecognisedArgs c.2)
  | none =>
      match take_quote c.2 with
      | .error e => .error e
      | .ok (by_, t1) =>
          let r1 := take_first t1
          let r2 := take_ignore_errors r1.2
          let r3 := take_description r2.2
          let r4 := take_wait_options r3.2
          if r4.2.isEmpty then .ok (.Opts by_ r1.1 r2.1 r3.1 r4.1)
          else .error (.unrecognisedArgs r4.2)

/-- Model of `impl From<ByTokens> for MultiResolverArgs`; `take_multi` is
called first and its value discarded. -/
def multiResolverArgsFrom (t : List ByToken) : Except PanicMsg MultiResolverArgs :=
  let m := take_multi t
  let c := take_custom m.2
  match c.1 with
  | some f =>
      if c.2.isEmpty then .ok (.CustomFn f) else .error (.unrecognisedArgs c.2)
  | none =>
      match take_quote c.2 with
      | .error e => .error e
      | .ok (by_, t1) =>
          let r1 := take_allow_empty t1
          let r2 := take_ignore_errors r1.2
          let r3 := take_description r2.2
          let r4 := take_wait_options r3.2
          if r4.2.isEmpty then .ok (.Opts by_ r1.1 r2.1 r3.1 r4.1)
          else .error (.unrecognisedArgs r4.2)

/-! ## Emission (the two `Into<TokenStream>` impls) -/

/-- Wait policy marker of the emitted options: either the
`ElementQueryWaitOptions::Wait { timeout, interval }` expression or the
bare `None` identifier. -/
inductive WaitEmit where
  | Wait (timeout : Nat) (interval : Nat)
  | NoWait
  deriving DecidableEq

/-- Emitted `ElementQueryOptions` builder arguments.  `ignore_errors` and
`description` hold the identifier text the source synthesizes with
`format_ident!`. -/
structure EmittedOpts where
  ignore_errors : String
  description : String
  wait : WaitEmit
  deriving DecidableEq

/-- Emitted construction expression: one of the five call shapes. -/
inductive ResolverCall where
  | new_custom (f : String)
  | new_first_opts (by_ : ByQuote) (opts : EmittedOpts)
  | new_single_opts (by_ : ByQuote) (opts : EmittedOpts)
  | new_allow_empty_opts (by_ : ByQuote) (opts : EmittedOpts)
  | new_not_empty_opts (by_ : ByQuote) (opts : EmittedOpts)
  deriving DecidableEq

/-- Characters accepted in the (ASCII) identifiers this macro synthesizes;
modelled from the validation of `proc_macro2::Ident::new`, which
`format_ident!` calls and which panics on anything else. -/
def identStartChar (c : Char) : Bool :=
  (decide ('a' ≤ c) && decide (c ≤ 'z')) ||
    (decide ('A' ≤ c) && decide (c ≤ 'Z')) || c == '_'

def identContinueChar (c : Char) : Bool :=
  identStartChar c || (decide ('0' ≤ c) && decide (c ≤ '9'))

/-- Validity test behind `proc_macro2::Ident::new`, restricted to ASCII —
every identifier text this macro synthesizes is ASCII: nonempty, not
starting with a digit, identifier characters only. -/
def is_valid_ident (s : String) : Bool :=
  match s.data with
  | [] => false
  | c :: rest => identStartChar c && rest.all identContinueChar

/-- Model of `format_ident!` applied to an already formatted text: returns
the text as an identifier, or panics (the `Except.error` side) exactly
where `proc_macro2::Ident::new` panics — on any text that is not a valid
identifier, such as a numeric literal or `Some(...)`. -/
def format_ident (s : String) : Except PanicMsg String :=
  if is_valid_ident s then .ok s else .error (.invalidIdent s)

/-- Model of `impl Into<TokenStream> for SingleResolverArgs`.  Each
`format_ident!` call of the source is modelled with `format_ident`, in the
source's evaluation order (ignore_errors, description, wait timeout then
interval, then the final call choice), so emission aborts exactly where the
source panics: on the numeric wait texts, on `Some(true)`, on
`Some({desc})`, or on an invalid custom function name.  `WaitEmit.Wait`
records the two numbers whose decimal texts the source embeds. -/
def singleResolverArgsInto (args : SingleResolverArgs) : Except PanicMsg ResolverCall :=
  match args with
  | .CustomFn f => do
      let f_ident ← format_ident f
      pure (.new_custom f_ident)
  | .Opts by_ first ignore_errors description wait => do
      let ignore_errors_ident : String ←
        match ignore_errors with
        | some true => format_ident "Some(true)"
        | _ => format_ident "None"
      let description_ident : String ←
        match description with
        | some desc => format_ident s!"Some({desc})"
        | none => format_ident "None"
      let wait_ident : WaitEmit ←
        match wait with
        | some w => do
            let _timeout_ident ← format_ident (toString w.timeout_ms)
            let _interval_ident ← format_ident (toString w.interval_ms)
            pure (WaitEmit.Wait w.timeout_ms w.interval_ms)
        | none => pure WaitEmit.NoWait
      let opts_ident : EmittedOpts := ⟨ignore_errors_ident, description_ident, wait_ident⟩
      match first with
      | some true => pure (.new_first_opts by_ opts_ident)
      | _ => pure (.new_single_opts by_ opts_ident)

/-- Model of `impl Into<TokenStream> for MultiResolverArgs`, with the same
`format_ident` modelling as `singleResolverArgsInto`. -/
def multiResolverArgsInto (args : MultiResolverArgs) : Except PanicMsg ResolverCall :=
  match args with
  | .CustomFn f => do
      let f_ident ← format_ident f
      pure (.new_custom f_ident)
  | .Opts by_ allow_empty ignore_errors description wait => do
      let ignore_errors_ident : String ←
        match ignore_errors with
        | some true => format_ident "Some(true)"
        | _ => format_ident "None"
      let description_ident : String ←
        match description with
        | some desc => format_ident s!"Some({desc})"
        | none => format_ident "None"
      let wait_ident : WaitEmit ←
        match wait with
        | some w => do
            let _timeout_ident ← format_ident (toString w.timeout_ms)
            let _interval_ident ← format_ident (toString w.interval_ms)
            pure (WaitEmit.Wait w.timeout_ms w.interval_ms)
        | none => pure WaitEmit.NoWait
      let opts_ident : EmittedOpts := ⟨ignore_errors_ident, description_ident, wait_ident⟩
      match allow_empty with
      | some true => pure (.new_allow_empty_opts by_ opts_ident)
      | _ => pure (.new_not_empty_opts by_ opts_ident)

def singleCompile (t : List ByToken) : Except PanicMsg ResolverCall :=
  (singleResolverArgsFrom t).bind singleResolverArgsInto

def multiCompile (t : List ByToken) : Except PanicMsg ResolverCall :=
  (multiResolverArgsFrom t).bind multiResolverArgsInto

/-! ## Derived helper definitions used by the statements -/

/-- Unique-category view of a bag, the quantity `validate` deduplicates. -/
def uniqueTypes (l : List ByToken) : List String := l.map ByToken.get_unique_type

/-- Selector-category test (the six `By` selector token kinds). -/
def isSelector (t : ByToken) : Bool := t.get_unique_type == "selector"

/-- CustomFn test. -/
def isCustom : ByToken → Bool
  | .CustomFn _ => true
  | _ => false

/-- Number of `timeout_ms`/`interval_ms`-shaped integer entries with the given
key inside a `wait(...)` argument list. -/
def waitKeyCount (key : String) (args : List NMeta) : Nat :=
  args.countP (fun a =>
    match a with
    | .nameValue k (.int _) => k.is_ident key
    | _ => false)

/-- Concrete attribute fragment `wait(timeout_ms = t, interval_ms = i)`. -/
def waitFrag (t i : Nat) : NMeta :=
  .list (identPath "wait")
    [.nameValue (identPath "timeout_ms") (.int t),
     .nameValue (identPath "interval_ms") (.int i)]

/-! ## Spec-side definitions for the resolution-mode claim (C3)

These definitions follow the wording of the spec/claim, to be compared
against `resolutionMode`, which is translated from the source. -/

/-- Identifier sequence of a type path, the spec's view of its spelling. -/
def specIdentsOf (p : TPath) : List String := p.segments.map TPathSegment.ident

/-- The known qualified spellings of the growable-sequence type named by the
claim: `Vec`, `vec::Vec`, `std::vec::Vec`, `alloc::vec::Vec`. -/
def specVecSpellings : List (List String) :=
  [["Vec"], ["vec", "Vec"], ["std", "vec", "Vec"], ["alloc", "vec", "Vec"]]

/-- Claim C3's condition, as written: the segment's *sole* generic type
argument is a path spelling the growable-sequence type. -/
def claimedSoleVecArg : TPathArguments → Bool
  | .angleBracketed args =>
      (match args.filterMap (fun a => match a with | .typeArg t => some t | _ => none) with
       | [TType.path t] => specVecSpellings.any (fun L => specIdentsOf t == L)
       | _ => false)
  | _ => false

/-- Resolution-mode decision exactly as claim C3 words it. -/
def claimedResolutionMode (bag : List ByToken) (p : TPath) : ResolutionMode :=
  if is_multi bag then .Multi
  else if p.is_ident "ElementResolverMulti" then .Multi
  else
    match p.segments.getLast? with
    | some x =>
        if x.ident == "ElementResolver" && claimedSoleVecArg x.arguments then .Multi
        else .Single
    | none => .Single

/-- Amended condition: the *first* generic argument that is a type path
decides, by spelling the growable-sequence type. -/
def amendedFirstVecArg : List TGenericArgument → Bool
  | [] => false
  | .typeArg (.path t) :: _ => specVecSpellings.any (fun L => specIdentsOf t == L)
  | _ :: rest => amendedFirstVecArg rest

/-- Resolution-mode decision as amended by the C3 counterexample. -/
def amendedResolutionMode (bag : List ByToken) (p : TPath) : ResolutionMode :=
  if is_multi bag then .Multi
  else if p.is_ident "ElementResolverMulti" then .Multi
  else
    match p.segments.getLast? with
    | some x =>
        (match x.arguments with
         | .angleBracketed args =>
             if x.ident == "ElementResolver" && amendedFirstVecArg args then .Multi
             else .Single
         | _ => .Single)
    | none => .Single

/-- Rust identifiers never contain a colon; the comparison of the source's
colon-joined ident string with the spec's ident-list spelling is only
faithful under this well-formedness condition. -/
def identNoColon (s : String) : Prop := (':' : Char) ∉ s.data

instance (s : String) : Decidable (identNoColon s) :=
  inferInstanceAs (Decidable ((':' : Char) ∉ s.data))

def wfInnerType : TGenericArgument → Prop
  | .typeArg (.path t) => ∀ seg ∈ t.segments, identNoColon seg.ident
  | _ => True

def wfSegArguments : TPathArguments → Prop
  | .angleBracketed args => ∀ a ∈ args, wfInnerType a
  | _ => True

/-- Well-formedness of a declared type path: every identifier of every
type-path generic argument is colon-free (true of every real `syn` path). -/
def wfPathForClassify (p : TPath) : Prop :=
  ∀ seg ∈ p.segments, wfSegArguments seg.arguments

/-- Right-nested form of the colon-joined fold in `idents_of_path`. -/
def catColon : List String → String
  | [] => ""
  | v :: rest => v ++ ":" ++ catColon rest

instance : ∀ a, Decidable (wfInnerType a)
  | .typeArg (.path t) =>
      inferInstanceAs (Decidable (∀ seg ∈ t.segments, identNoColon seg.ident))
  | .typeArg .otherType => .isTrue trivial
  | .otherArg => .isTrue trivial

instance : ∀ a, Decidable (wfSegArguments a)
  | .angleBracketed args => inferInstanceAs (Decidable (∀ x ∈ args, wfInnerType x))
  | .noArgs => .isTrue trivial
  | .parenthesized => .isTrue trivial

instance (p : TPath) : Decidable (wfPathForClassify p) :=
  inferInstanceAs (Decidable (∀ seg ∈ p.segments, wfSegArguments seg.arguments))

/-- Concrete witness path for C3: `ElementResolver<std::vec::Vec<i32>>`. -/
def c3WitnessPath : TPath :=
  .mk false
    [.mk "ElementResolver"
      (.angleBracketed
        [.typeArg (.path (.mk false
          [.mk "std" .noArgs, .mk "vec" .noArgs,
           .mk "Vec" (.angleBracketed [.typeArg (.path (.mk false [.mk "i32" .noArgs]))])]))])]

/-- Concrete attribute for C5's counterexample:
`#[by(wait(timeout_ms = 30000, interval_ms = 500), custom = "f")]`. -/
def c5Attr : NMeta :=
  .list (identPath "by")
    [waitFrag 30000 500, .nameValue (identPath "custom") (.str "f")]

/-- Argument list of C7's counterexample:
`wait(timeout_ms = 4294967296, interval_ms = 500)` (an out-of-u32 value). -/
def c7Args : List NMeta :=
  [.nameValue (identPath "timeout_ms") (.int 4294967296),
   .nameValue (identPath "interval_ms") (.int 500)]

/-- Concrete attributes for C10's witness: `#[by(css = "a")]`, `#[by(css = "b")]`. -/
def c10AttrA : NMeta := .list (identPath "by") [.nameValue (identPath "css") (.str "a")]

def c10AttrB : NMeta := .list (identPath "by") [.nameValue (identPath "css") (.str "b")]

/-- Concrete counterexample path for C3: `ElementResolver<Vec<i32>, i32>`. -/
def c3Path : TPath :=
  .mk false
    [.mk "ElementResolver"
      (.angleBracketed
        [.typeArg (.path (.mk false
          [.mk "Vec" (.angleBracketed [.typeArg (.path (.mk false [.mk "i32" .noArgs]))])])),
         .typeArg (.path (.mk false [.mk "i32" .noArgs]))])]

/-! ## Basic lemmas about the validator -/

theorem collectUnique_ok_mem {rest : List ByToken} : ∀ {seen s : List String},
    collectUnique rest seen = .ok s → ∀ x, x ∈ s ↔ x ∈ seen ∨ x ∈ uniqueTypes rest := by
  induction rest with
  | nil =>
      intro seen s h x
      simp only [collectUnique, Except.ok.injEq] at h
      subst h
      simp [uniqueTypes]
  | cons t ts ih =>
      intro seen s h x
      by_cases hmem : t.get_unique_type ∈ seen
      · simp [collectUnique, if_pos hmem] at h
      · simp only [collectUnique, if_neg hmem] at h
        have := ih h x
        simp only [uniqueTypes, List.map_cons, List.mem_cons] at this ⊢
        tauto

theorem collectUnique_ok_nodup {rest : List ByToken} : ∀ {seen s : List String},
    collectUnique rest seen = .ok s →
      (uniqueTypes rest).Nodup ∧ ∀ c ∈ uniqueTypes rest, c ∉ seen := by
  induction rest with
  | nil => intro seen s _; simp [uniqueTypes]
  | cons t ts ih =>
      intro seen s h
      by_cases hmem : t.get_unique_type ∈ seen
      · simp [collectUnique, if_pos hmem] at h
      · simp only [collectUnique, if_neg hmem] at h
        obtain ⟨h1, h2⟩ := ih h
        constructor
        · simp only [uniqueTypes, List.map_cons, List.nodup_cons]
          refine ⟨fun hc => ?_, h1⟩
          exact (h2 _ hc) (by simp)
        · intro c hc
          simp only [uniqueTypes, List.map_cons, List.mem_cons] at hc
          rcases hc with rfl | hc
          · exact hmem
          · intro hcs
            exact (h2 c hc) (by simp [hcs])

theorem collectUnique_ok_of {rest : List ByToken} : ∀ {seen : List String},
    (uniqueTypes rest).Nodup → (∀ c ∈ uniqueTypes rest, c ∉ seen) →
      ∃ s, collectUnique rest seen = .ok s := by
  induction rest with
  | nil => intro seen _ _; exact ⟨seen, rfl⟩
  | cons t ts ih =>
      intro seen h1 h2
      have hmem : t.get_unique_type ∉ seen := h2 _ (by simp [uniqueTypes])
      simp only [uniqueTypes, List.map_cons, List.nodup_cons] at h1
      obtain ⟨s, hs⟩ := ih h1.2 (by
        intro c hc hcs
        rcases List.mem_cons.mp hcs with rfl | hin
        · exact h1.1 hc
        · exact (h2 c (by
            simp only [uniqueTypes, List.map_cons, List.mem_cons]
            exact .inr hc)) hin)
      exact ⟨s, by simp only [collectUnique, if_neg hmem]; exact hs⟩

theorem collectUnique_err_shape (rest : List ByToken) : ∀ (seen : List String),
    (∃ s, collectUnique rest seen = .ok s) ∨
      (∃ c, collectUnique rest seen = .error (dupMsg c)) := by
  induction rest with
  | nil => intro seen; exact .inl ⟨seen, rfl⟩
  | cons t ts ih =>
      intro seen
      by_cases hmem : t.get_unique_type ∈ seen
      · exact .inr ⟨t.get_unique_type, by simp only [collectUnique, if_pos hmem]⟩
      · simpa only [collectUnique, if_neg hmem] using ih _

theorem collectUnique_append {A : List ByToken} : ∀ {B : List ByToken} {seen s : List String},
    collectUnique A seen = .ok s →
      collectUnique (A ++ B) seen = collectUnique B s := by
  induction A with
  | nil =>
      intro B seen s h
      simp only [collectUnique, Except.ok.injEq] at h
      subst h
      simp
  | cons t ts ih =>
      intro B seen s h
      by_cases hmem : t.get_unique_type ∈ seen
      · simp [collectUnique, if_pos hmem] at h
      · simp only [List.cons_append, collectUnique, if_neg hmem] at h ⊢
        exact ih h

theorem checkDisallowed_ok_iff {seen : List String} {l : List ByToken} :
    checkDisallowed seen l = .ok () ↔
      ∀ t ∈ l, ∀ d ∈ t.get_disallowed_types, d ∉ seen := by
  induction l with
  | nil => simp [checkDisallowed]
  | cons t ts ih =>
      cases hf : t.get_disallowed_types.find? (fun d => decide (d ∈ seen)) with
      | some d =>
          simp only [checkDisallowed, hf]
          constructor
          · intro h; cases h
          · intro h
            have hd := List.find?_some hf
            have hmem := List.mem_of_find?_eq_some hf
            exact absurd (of_decide_eq_true hd) (h t (List.mem_cons_self t ts) d hmem)
      | none =>
          simp only [checkDisallowed, hf, ih]
          constructor
          · intro h t' ht' d hd
            rcases List.mem_cons.mp ht' with rfl | ht'
            · have := List.find?_eq_none.mp hf d hd
              simpa using this
            · exact h t' ht' d hd
          · intro h t' ht' d hd
            exact h t' (List.mem_cons_of_mem _ ht') d hd

theorem checkDisallowed_append {seen : List String} {A B : List ByToken}
    (h : checkDisallowed seen A = .ok ()) :
    checkDisallowed seen (A ++ B) = checkDisallowed seen B := by
  induction A with
  | nil => simp
  | cons t ts ih =>
      simp only [checkDisallowed, List.cons_append] at h ⊢
      cases hf : t.get_disallowed_types.find? (fun d => decide (d ∈ seen)) with
      | some d => simp [hf] at h
      | none =>
          simp only [hf] at h ⊢
          exact ih h

theorem validate_ok_iff {l : List ByToken} :
    validate l = .ok () ↔
      (uniqueTypes l).Nodup ∧
        ∀ t ∈ l, ∀ d ∈ t.get_disallowed_types, d ∉ uniqueTypes l := by
  unfold validate
  cases hc : collectUnique l [] with
  | error e =>
      simp only
      constructor
      · intro h; cases h
      · rintro ⟨h1, -⟩
        obtain ⟨s, hs⟩ := collectUnique_ok_of h1 (fun c _ => List.not_mem_nil c)
        rw [hc] at hs
        cases hs
  | ok s =>
      simp only
      have hmem := collectUnique_ok_mem hc
      have hnd := (collectUnique_ok_nodup hc).1
      rw [checkDisallowed_ok_iff]
      constructor
      · intro h
        refine ⟨hnd, fun t ht d hd hdm => h t ht d hd ?_⟩
        rw [hmem]
        exact .inr hdm
      · rintro ⟨-, h⟩ t ht d hd hds
        have hds' := (hmem d).mp hds
        rcases hds' with h0 | h0
        · cases h0
        · exact h t ht d hd h0

theorem validate_ok_nodup {l : List ByToken} (h : validate l = .ok ()) :
    (uniqueTypes l).Nodup := (validate_ok_iff.mp h).1

theorem validate_ok_no_conflict {l : List ByToken} (h : validate l = .ok ())
    {tok : ByToken} (htok : tok ∈ l) {d : String} (hd : d ∈ tok.get_disallowed_types) :
    ∀ t ∈ l, t.get_unique_type ≠ d := by
  intro t ht hEq
  exact (validate_ok_iff.mp h).2 tok htok d hd (hEq ▸ List.mem_map_of_mem _ ht)

/-! ## Basic lemmas about the bag operations -/

theorem take_one_none {T : Type} {f : ByToken → Option T} {l : List ByToken}
    (h : ∀ t ∈ l, f t = none) : take_one f l = (none, l) := by
  induction l with
  | nil => rfl
  | cons t ts ih =>
      have h0 : f t = none := h t (List.mem_cons_self t ts)
      simp only [take_one, h0]
      rw [ih (fun x hx => h x (List.mem_cons_of_mem _ hx))]

theorem take_one_snd_sublist {T : Type} (f : ByToken → Option T) (l : List ByToken) :
    (take_one f l).2.Sublist l := by
  induction l with
  | nil => exact List.nil_sublist []
  | cons t ts ih =>
      cases hf : f t with
      | some v =>
          simp only [take_one, hf]
          exact (List.sublist_cons_self t ts)
      | none =>
          simp only [take_one, hf]
          exact ih.cons₂ t

theorem take_one_mem_snd {T : Type} {f : ByToken → Option T} {x : ByToken} {l : List ByToken}
    (hx : x ∈ l) (hfx : f x = none) : x ∈ (take_one f l).2 := by
  induction l with
  | nil => cases hx
  | cons t ts ih =>
      cases hf : f t with
      | some v =>
          simp only [take_one, hf]
          rcases List.mem_cons.mp hx with rfl | h
          · rw [hfx] at hf; cases hf
          · exact h
      | none =>
          simp only [take_one, hf]
          rcases List.mem_cons.mp hx with rfl | h
          · exact List.mem_cons_self _ _
          · exact List.mem_cons_of_mem _ (ih h)

theorem take_one_isSome {T : Type} {f : ByToken → Option T} {x : ByToken} {l : List ByToken}
    (hx : x ∈ l) (hfx : (f x).isSome = true) : ((take_one f l).1).isSome = true := by
  induction l with
  | nil => cases hx
  | cons t ts ih =>
      cases hf : f t with
      | some v => simp [take_one, hf]
      | none =>
          rcases List.mem_cons.mp hx with rfl | h
          · rw [hf] at hfx; simp at hfx
          · simp only [take_one, hf]
            exact ih h

theorem take_one_fst_eq {T : Type} {f : ByToken → Option T} {l : List ByToken}
    {tok : ByToken} {v : T}
    (hnd : (uniqueTypes l).Nodup) (htok : tok ∈ l) (hv : f tok = some v)
    (hcat : ∀ t : ByToken, (f t).isSome = true → t.get_unique_type = tok.get_unique_type) :
    (take_one f l).1 = some v := by
  induction l with
  | nil => cases htok
  | cons t ts ih =>
      simp only [uniqueTypes, List.map_cons, List.nodup_cons] at hnd
      cases hf : f t with
      | some w =>
          rcases List.mem_cons.mp htok with rfl | h
          · have hw := hf.symm.trans hv
            injection hw with hw
            subst hw
            simp [take_one, hf]
          · exfalso
            have h1 : t.get_unique_type = tok.get_unique_type := hcat t (by simp [hf])
            have h2 : tok.get_unique_type ∈ uniqueTypes ts := List.mem_map_of_mem _ h
            exact hnd.1 (h1 ▸ h2)
      | none =>
          rcases List.mem_cons.mp htok with rfl | h
          · rw [hv] at hf; cases hf
          · simp only [take_one, hf]
            exact ih (by simpa [uniqueTypes] using hnd.2) h

/-! ## Selector counting and `take_quote` lemmas -/

theorem isSelector_eq_isSome_quote (t : ByToken) : isSelector t = (quoteOf t).isSome := by
  cases t <;> rfl

theorem filterMap_quote_length (l : List ByToken) :
    (l.filterMap quoteOf).length = l.countP isSelector := by
  induction l with
  | nil => rfl
  | cons t ts ih =>
      rw [List.filterMap_cons, List.countP_cons]
      cases hq : quoteOf t with
      | none =>
          have hsel : isSelector t = false := by rw [isSelector_eq_isSome_quote, hq]; rfl
          simp [hsel, ih]
      | some q =>
          have hsel : isSelector t = true := by rw [isSelector_eq_isSome_quote, hq]; rfl
          simp [hsel, ih]

theorem countP_selector_le_one {l : List ByToken} (hnd : (uniqueTypes l).Nodup) :
    l.countP isSelector ≤ 1 := by
  induction l with
  | nil => simp
  | cons t ts ih =>
      simp only [uniqueTypes, List.map_cons, List.nodup_cons] at hnd
      rw [List.countP_cons]
      cases hsel : isSelector t with
      | true =>
          have ht : t.get_unique_type = "selector" := by
            have := hsel
            unfold isSelector at this
            exact eq_of_beq this
          have htail : ts.countP isSelector = 0 := by
            rw [List.countP_eq_zero]
            intro x hx hselx
            have hx' : x.get_unique_type = "selector" := by
              unfold isSelector at hselx
              exact eq_of_beq hselx
            apply hnd.1
            rw [ht, ← hx']
            exact List.mem_map_of_mem _ hx
          simp [hsel, htail]
      | false =>
          have hrec := ih (by simpa [uniqueTypes] using hnd.2)
          simpa using hrec

theorem take_quote_ok_iff {l : List ByToken} {q : ByQuote} {rest : List ByToken} :
    take_quote l = .ok (q, rest) ↔
      l.filterMap quoteOf = [q] ∧ rest = l.filter (fun t => (quoteOf t).isNone) := by
  cases hf : l.filterMap quoteOf with
  | nil =>
      simp only [take_quote, hf]
      constructor
      · intro h; cases h
      · rintro ⟨h1, _⟩; cases h1
  | cons q' qs =>
      cases qs with
      | nil =>
          simp only [take_quote, hf]
          constructor
          · intro h
            injection h with h
            injection h with h1 h2
            exact ⟨by rw [h1], h2.symm⟩
          · rintro ⟨h1, h2⟩
            injection h1 with h1 h1t
            rw [h1, h2]
      | cons q'' qs' =>
          simp only [take_quote, hf]
          constructor
          · intro h; cases h
          · rintro ⟨h1, _⟩; simp at h1

theorem take_quote_noSel_iff {l : List ByToken} :
    take_quote l = .error .noSelectorFound ↔ l.countP isSelector = 0 := by
  rw [← filterMap_quote_length, List.length_eq_zero]
  cases hf : l.filterMap quoteOf with
  | nil => simp [take_quote, hf]
  | cons a as =>
      cases as with
      | nil => simp [take_quote, hf]
      | cons b bs => simp [take_quote, hf]

theorem take_quote_ok_of_count {l : List ByToken} (h : l.countP isSelector = 1) :
    ∃ q, take_quote l = .ok (q, l.filter (fun t => (quoteOf t).isNone)) := by
  have hlen : (l.filterMap quoteOf).length = 1 := by rw [filterMap_quote_length, h]
  obtain ⟨q, hq⟩ := List.length_eq_one.mp hlen
  exact ⟨q, by simp [take_quote, hq]⟩

theorem take_quote_ne_multi {l : List ByToken} (hnd : (uniqueTypes l).Nodup) :
    take_quote l ≠ .error .multipleSelectorsNotSupported := by
  intro h
  have hle := countP_selector_le_one hnd
  rw [← filterMap_quote_length] at hle
  rcases hf : l.filterMap quoteOf with - | ⟨a, as⟩
  · simp [take_quote, hf] at h
  · rcases as with - | ⟨b, bs⟩
    · simp [take_quote, hf] at h
    · rw [hf] at hle
      simp at hle

theorem take_quote_ok_of_mem {l : List ByToken} (hnd : (uniqueTypes l).Nodup)
    {s : ByToken} (hs : s ∈ l) (hsel : isSelector s = true) :
    ∃ q, take_quote l = .ok (q, l.filter (fun t => (quoteOf t).isNone)) := by
  apply take_quote_ok_of_count
  have hle := countP_selector_le_one hnd
  have hge : 0 < l.countP isSelector := List.countP_pos_iff.mpr ⟨s, hs, hsel⟩
  omega

theorem mem_quote_rest {l : List ByToken} {x : ByToken}
    (hx : x ∈ l) (hq : quoteOf x = none) :
    x ∈ l.filter (fun t => (quoteOf t).isNone) :=
  List.mem_filter.mpr ⟨hx, by simp [hq]⟩

/-! ## Specialized take lemmas -/

theorem take_custom_eq_none {l : List ByToken}
    (h : ∀ t ∈ l, t.get_unique_type ≠ "custom") : take_custom l = (none, l) :=
  take_one_none (fun t ht => by
    cases t <;> first | rfl | exact absurd rfl (h _ ht))

theorem take_multi_eq_none {l : List ByToken}
    (h : ∀ t ∈ l, t.get_unique_type ≠ "multi") : take_multi l = (none, l) :=
  take_one_none (fun t ht => by
    cases t <;> first | rfl | exact absurd rfl (h _ ht))

theorem take_wait_fst {l : List ByToken} (hnd : (uniqueTypes l).Nodup)
    {w : WaitOptions} (hw : ByToken.Wait w ∈ l) :
    (take_wait_options l).1 = some w :=
  take_one_fst_eq hnd hw rfl (fun t ht => by
    cases t <;> first | rfl | simp at ht)

theorem take_custom_isSome {l : List ByToken} {f : String}
    (h : ByToken.CustomFn f ∈ l) : ((take_custom l).1).isSome = true :=
  take_one_isSome h rfl

theorem mem_take_custom_of_selector {l : List ByToken} {x : ByToken}
    (hx : x ∈ l) (hsel : isSelector x = true) : x ∈ (take_custom l).2 := by
  refine take_one_mem_snd hx ?_
  cases x <;> first
    | rfl
    | exact absurd hsel (by show ¬ (("custom" : String) == "selector") = true; decide)

theorem mem_take_multi_of_selector {l : List ByToken} {x : ByToken}
    (hx : x ∈ l) (hsel : isSelector x = true) : x ∈ (take_multi l).2 := by
  refine take_one_mem_snd hx ?_
  cases x <;> first
    | rfl
    | exact absurd hsel (by show ¬ (("multi" : String) == "selector") = true; decide)

theorem isEmpty_false_of_mem {α : Type _} {x : α} {l : List α} (h : x ∈ l) :
    l.isEmpty = false := by
  cases l with
  | nil => cases h
  | cons a l => rfl

/-! ## Shape lemmas for the resolver argument compilers -/

theorem singleFrom_custom_shape {l rest : List ByToken} {f : String}
    (hc : take_custom l = (some f, rest)) :
    singleResolverArgsFrom l =
      if rest.isEmpty then .ok (.CustomFn f) else .error (.unrecognisedArgs rest) := by
  simp only [singleResolverArgsFrom, hc]

theorem singleFrom_opts_shape {l : List ByToken} {q : ByQuote} {rest : List ByToken}
    (hnc : take_custom l = (none, l))
    (htq : take_quote l = .ok (q, rest)) :
    singleResolverArgsFrom l =
      (if (take_wait_options (take_description (take_ignore_errors
            (take_first rest).2).2).2).2.isEmpty
       then .ok (.Opts q (take_first rest).1
                  (take_ignore_errors (take_first rest).2).1
                  (take_description (take_ignore_errors (take_first rest).2).2).1
                  (take_wait_options (take_description (take_ignore_errors
                    (take_first rest).2).2).2).1)
       else .error (.unrecognisedArgs
         (take_wait_options (take_description (take_ignore_errors
           (take_first rest).2).2).2).2)) := by
  simp only [singleResolverArgsFrom, hnc, htq]

theorem multiFrom_custom_shape {l l1 rest : List ByToken} {m1 : Option Bool} {f : String}
    (hm : take_multi l = (m1, l1))
    (hc : take_custom l1 = (some f, rest)) :
    multiResolverArgsFrom l =
      if rest.isEmpty then .ok (.CustomFn f) else .error (.unrecognisedArgs rest) := by
  simp only [multiResolverArgsFrom, hm, hc]

theorem multiFrom_opts_shape {l l1 : List ByToken} {m1 : Option Bool} {q : ByQuote}
    {rest : List ByToken}
    (hm : take_multi l = (m1, l1))
    (hnc : take_custom l1 = (none, l1))
    (htq : take_quote l1 = .ok (q, rest)) :
    multiResolverArgsFrom l =
      (if (take_wait_options (take_description (take_ignore_errors
            (take_allow_empty rest).2).2).2).2.isEmpty
       then .ok (.Opts q (take_allow_empty rest).1
                  (take_ignore_errors (take_allow_empty rest).2).1
                  (take_description (take_ignore_errors (take_allow_empty rest).2).2).1
                  (take_wait_options (take_description (take_ignore_errors
                    (take_allow_empty rest).2).2).2).1)
       else .error (.unrecognisedArgs
         (take_wait_options (take_description (take_ignore_errors
           (take_allow_empty rest).2).2).2).2)) := by
  simp only [multiResolverArgsFrom, hm, hnc, htq]

/-! ## String lemmas relating the colon-joined fold to the ident list (C3) -/

theorem string_data_append (a b : String) : (a ++ b).data = a.data ++ b.data := by
  cases a; cases b; rfl

theorem string_eq_of_data {a b : String} (h : a.data = b.data) : a = b := by
  cases a; cases b; exact congrArg String.mk h

theorem empty_string_data : ("" : String).data = [] := rfl

theorem colon_string_data : (":" : String).data = [':'] := rfl

theorem catColon_cons_data (v : String) (rest : List String) :
    (catColon (v :: rest)).data = v.data ++ ':' :: (catColon rest).data := by
  show ((v ++ ":") ++ catColon rest).data = _
  rw [string_data_append, string_data_append, colon_string_data]
  simp

theorem colon_append_inj : ∀ (as bs r r' : List Char),
    (':' : Char) ∉ as → (':' : Char) ∉ bs →
    as ++ ':' :: r = bs ++ ':' :: r' → as = bs ∧ r = r' := by
  intro as
  induction as with
  | nil =>
      intro bs r r' _ hbs h
      cases bs with
      | nil =>
          simp only [List.nil_append] at h
          injection h with h1 h2
          exact ⟨rfl, h2⟩
      | cons b bs' =>
          simp only [List.nil_append, List.cons_append] at h
          injection h with h1 h2
          exfalso
          apply hbs
          rw [h1]
          exact List.mem_cons_self b bs'
  | cons a as' ih =>
      intro bs r r' has hbs h
      cases bs with
      | nil =>
          simp only [List.cons_append, List.nil_append] at h
          injection h with h1 h2
          exfalso
          apply has
          rw [← h1]
          exact List.mem_cons_self a as'
      | cons b bs' =>
          simp only [List.cons_append] at h
          injection h with h1 h2
          have has' : (':' : Char) ∉ as' := fun hm => has (List.mem_cons_of_mem _ hm)
          have hbs' : (':' : Char) ∉ bs' := fun hm => hbs (List.mem_cons_of_mem _ hm)
          obtain ⟨hab, hr⟩ := ih bs' r r' has' hbs' h2
          exact ⟨by rw [h1, hab], hr⟩

theorem catColon_inj : ∀ (X Y : List String),
    (∀ s ∈ X, identNoColon s) → (∀ s ∈ Y, identNoColon s) →
    catColon X = catColon Y → X = Y := by
  intro X
  induction X with
  | nil =>
      intro Y _ hY h
      cases Y with
      | nil => rfl
      | cons y ys =>
          exfalso
          have hd := congrArg String.data h
          rw [show catColon ([] : List String) = "" from rfl, empty_string_data,
              catColon_cons_data] at hd
          have hlen := congrArg List.length hd
          simp only [List.length_nil, List.length_append, List.length_cons] at hlen
          omega
  | cons x xs ih =>
      intro Y hX hY h
      cases Y with
      | nil =>
          exfalso
          have hd := congrArg String.data h
          rw [show catColon ([] : List String) = "" from rfl, empty_string_data,
              catColon_cons_data] at hd
          have hlen := congrArg List.length hd
          simp only [List.length_nil, List.length_append, List.length_cons] at hlen
          omega
      | cons y ys =>
          have hd := congrArg String.data h
          rw [catColon_cons_data, catColon_cons_data] at hd
          have hx := hX x (List.mem_cons_self _ _)
          have hy := hY y (List.mem_cons_self _ _)
          obtain ⟨h1, h2⟩ := colon_append_inj _ _ _ _ hx hy hd
          have hxy : x = y := string_eq_of_data h1
          have hxs : xs = ys := ih ys (fun s hs => hX s (List.mem_cons_of_mem _ hs))
            (fun s hs => hY s (List.mem_cons_of_mem _ hs)) (string_eq_of_data h2)
          rw [hxy, hxs]

theorem string_append_assoc (a b c : String) : a ++ b ++ c = a ++ (b ++ c) :=
  string_eq_of_data (by simp [string_data_append])

theorem string_append_empty (a : String) : a ++ "" = a :=
  string_eq_of_data (by simp [string_data_append, empty_string_data])

theorem string_empty_append (a : String) : "" ++ a = a :=
  string_eq_of_data (by simp [string_data_append, empty_string_data])

theorem idents_foldl_eq (segs : List TPathSegment) : ∀ acc : String,
    segs.foldl (fun acc v => acc ++ v.ident ++ ":") acc
      = acc ++ catColon (segs.map TPathSegment.ident) := by
  induction segs with
  | nil =>
      intro acc
      simp only [List.foldl_nil, List.map_nil]
      rw [show catColon [] = "" from rfl, string_append_empty]
  | cons s ss ih =>
      intro acc
      simp only [List.foldl_cons, List.map_cons]
      rw [ih]
      apply string_eq_of_data
      simp only [string_data_append, catColon_cons_data, colon_string_data]
      simp [List.append_assoc]

theorem idents_of_path_eq (p : TPath) :
    idents_of_path p = catColon (specIdentsOf p) := by
  unfold idents_of_path specIdentsOf
  rw [idents_foldl_eq, string_empty_append]

theorem vec_spelling_eq {t : TPath} (h : ∀ seg ∈ t.segments, identNoColon seg.ident) :
    (vecSpellingsJoined.any (fun x => idents_of_path t == x))
      = (specVecSpellings.any (fun L => specIdentsOf t == L)) := by
  have hX : ∀ s ∈ specIdentsOf t, identNoColon s := by
    intro s hs
    obtain ⟨seg, hseg, rfl⟩ := List.mem_map.mp hs
    exact h seg hseg
  have key : ∀ L : List String, (∀ s ∈ L, identNoColon s) →
      (idents_of_path t == catColon L) = (specIdentsOf t == L) := by
    intro L hL
    rw [idents_of_path_eq]
    by_cases hEq : specIdentsOf t = L
    · rw [hEq]
      simp
    · have hne : catColon (specIdentsOf t) ≠ catColon L :=
        fun hc => hEq (catColon_inj _ _ hX hL hc)
      rw [beq_eq_false_iff_ne.mpr hne, beq_eq_false_iff_ne.mpr hEq]
  simp only [vecSpellingsJoined, specVecSpellings, List.any_cons, List.any_nil]
  rw [show ("Vec:" : String) = catColon ["Vec"] by decide,
      show ("vec:Vec:" : String) = catColon ["vec", "Vec"] by decide,
      show ("std:vec:Vec:" : String) = catColon ["std", "vec", "Vec"] by decide,
      show ("alloc:vec:Vec:" : String) = catColon ["alloc", "vec", "Vec"] by decide,
      key ["Vec"] (by decide), key ["vec", "Vec"] (by decide),
      key ["std", "vec", "Vec"] (by decide), key ["alloc", "vec", "Vec"] (by decide)]

/-! ## Classifier equivalence under well-formed paths (C3) -/

theorem firstTypePathVecCheck_eq_amended {args : List TGenericArgument}
    (h : ∀ a ∈ args, wfInnerType a) :
    firstTypePathVecCheck args = amendedFirstVecArg args := by
  induction args with
  | nil => rfl
  | cons a rest ih =>
      cases a with
      | otherArg =>
          simp only [firstTypePathVecCheck, amendedFirstVecArg]
          exact ih (fun x hx => h x (List.mem_cons_of_mem _ hx))
      | typeArg t =>
          cases t with
          | otherType =>
              simp only [firstTypePathVecCheck, amendedFirstVecArg]
              exact ih (fun x hx => h x (List.mem_cons_of_mem _ hx))
          | path tp =>
              simp only [firstTypePathVecCheck, amendedFirstVecArg]
              exact vec_spelling_eq (h _ (List.mem_cons_self _ _))

theorem resolutionMode_eq_amended (bag : List ByToken) (p : TPath)
    (hwf : wfPathForClassify p) :
    resolutionMode bag p = amendedResolutionMode bag p := by
  unfold resolutionMode amendedResolutionMode
  cases hm : is_multi bag with
  | true => simp
  | false =>
      simp only [Bool.false_or]
      by_cases hid : p.is_ident "ElementResolverMulti" = true
      · simp [is_multi_resolver, hid]
      · simp only [is_multi_resolver, hid, if_false, Bool.false_eq_true, if_true]
        cases hlast : p.segments.getLast? with
        | none => simp
        | some x =>
            have hx : x ∈ p.segments := by
              obtain ⟨hne, rfl⟩ := List.mem_getLast?_eq_getLast (Option.mem_def.mpr hlast)
              exact List.getLast_mem hne
            cases harg : x.arguments with
            | noArgs =>
                cases hident : x.ident == "ElementResolver" <;> simp [harg, hident]
            | parenthesized =>
                cases hident : x.ident == "ElementResolver" <;> simp [harg, hident]
            | angleBracketed args =>
                have hargs : ∀ a ∈ args, wfInnerType a := by
                  have hseg := hwf x hx
                  rw [harg] at hseg
                  exact hseg
                have hfix := firstTypePathVecCheck_eq_amended hargs
                cases hident : x.ident == "ElementResolver" <;>
                  cases hchk : amendedFirstVecArg args <;>
                    simp [harg, hident, hchk, hfix]

/-! ## Further helper lemmas for the claim proofs -/

theorem singleFrom_quote_error {l : List ByToken} {e : PanicMsg}
    (hnc : take_custom l = (none, l)) (htq : take_quote l = .error e) :
    singleResolverArgsFrom l = .error e := by
  simp only [singleResolverArgsFrom, hnc, htq]

theorem multiFrom_quote_error {l l1 : List ByToken} {m1 : Option Bool} {e : PanicMsg}
    (hm : take_multi l = (m1, l1))
    (hnc : take_custom l1 = (none, l1)) (htq : take_quote l1 = .error e) :
    multiResolverArgsFrom l = .error e := by
  simp only [multiResolverArgsFrom, hm, hnc, htq]

theorem uniqueTypes_sublist {l1 l2 : List ByToken} (h : List.Sublist l1 l2)
    (hnd : (uniqueTypes l2).Nodup) : (uniqueTypes l1).Nodup :=
  List.Nodup.sublist (h.map ByToken.get_unique_type) hnd

theorem selector_disallowed_nil {t : ByToken} (h : t.get_unique_type = "selector") :
    t.get_disallowed_types = [] := by
  cases t with
  | Id v => rfl
  | Tag v => rfl
  | LinkText v => rfl
  | Css v => rfl
  | XPath v => rfl
  | Name v => rfl
  | Multi => exact absurd h (by decide)
  | AllowEmpty => exact absurd h (by decide)
  | First => exact absurd h (by decide)
  | IgnoreErrors => exact absurd h (by decide)
  | Description s => exact absurd h (by show ¬ ("description" : String) = "selector"; decide)
  | Wait w => exact absurd h (by show ¬ ("wait" : String) = "selector"; decide)
  | CustomFn f => exact absurd h (by show ¬ ("custom" : String) = "selector"; decide)

theorem custom_disallowed_mem (f : String) {d : String}
    (h : d ∈ (["multi", "first", "ignore_errors", "description", "wait",
        "allow_empty"] : List String)) :
    d ∈ (ByToken.CustomFn f).get_disallowed_types := h

theorem wait_disallowed_custom (w : WaitOptions) :
    "custom" ∈ (ByToken.Wait w).get_disallowed_types :=
  List.mem_cons_self "custom" []

theorem is_ident_eq {p : TPath} {x : String} (h : p.is_ident x = true) :
    p = identPath x := by
  cases p with
  | mk lc segs =>
      cases lc with
      | true => cases h
      | false =>
          cases segs with
          | nil => cases h
          | cons s ss =>
              cases ss with
              | cons s2 ss2 =>
                  cases s with
                  | mk i args => cases args <;> cases h
              | nil =>
                  cases s with
                  | mk i args =>
                      cases args with
                      | angleBracketed a => cases h
                      | parenthesized => cases h
                      | noArgs =>
                          have hi : i = x := eq_of_beq h
                          rw [hi]
                          rfl

theorem parseWaitArgs_full {rest : List NMeta} {t i : Nat} {r : Option Nat × Option Nat}
    (h : parseWaitArgs rest (some t) (some i) = .ok r) :
    rest = [] ∧ r = (some t, some i) := by
  cases rest with
  | nil =>
      injection h with h
      exact ⟨rfl, h.symm⟩
  | cons a as =>
      exfalso
      cases a with
      | nameValue k l =>
          cases l with
          | int v =>
              by_cases h1 : k.is_ident "timeout_ms" = true
              · simp [parseWaitArgs, h1] at h
              · by_cases h2 : k.is_ident "interval_ms" = true
                · simp [parseWaitArgs, h1, h2] at h
                · simp [parseWaitArgs, h1, h2] at h
          | str v => simp [parseWaitArgs] at h
          | other => simp [parseWaitArgs] at h
      | path p => simp [parseWaitArgs] at h
      | list p n => simp [parseWaitArgs] at h
      | lit v => simp [parseWaitArgs] at h

theorem scanByAux_append {A B : List NMeta} : ∀ {acc r : Option (List ByToken)},
    scanByAttributesAux acc A = .ok r →
      scanByAttributesAux acc (A ++ B) = scanByAttributesAux r B := by
  induction A with
  | nil =>
      intro acc r h
      injection h with h
      rw [List.nil_append, h]
  | cons a as ih =>
      intro acc r h
      by_cases hby : attrPathIsBy a = true
      · cases hpt : byTokensTryFrom a with
        | error e => simp [scanByAttributesAux, hby, hpt] at h
        | ok x =>
            simp only [scanByAttributesAux, hby, hpt, if_true, List.cons_append] at h ⊢
            exact ih h
      · simp only [scanByAttributesAux, hby, if_false, List.cons_append] at h ⊢
        exact ih h

theorem scanByAux_ok_of_all {A : List NMeta}
    (h : ∀ x ∈ A, attrPathIsBy x = true → ∃ b, byTokensTryFrom x = .ok b) :
    ∀ acc, ∃ r, scanByAttributesAux acc A = .ok r := by
  induction A with
  | nil => intro acc; exact ⟨acc, rfl⟩
  | cons a as ih =>
      intro acc
      have htail : ∀ x ∈ as, attrPathIsBy x = true → ∃ b, byTokensTryFrom x = .ok b :=
        fun x hx => h x (List.mem_cons_of_mem _ hx)
      by_cases hby : attrPathIsBy a = true
      · obtain ⟨b, hb⟩ := h a (List.mem_cons_self _ _) hby
        obtain ⟨r, hr⟩ := ih htail (some b)
        exact ⟨r, by simp [scanByAttributesAux, hby, hb, hr]⟩
      · obtain ⟨r, hr⟩ := ih htail acc
        exact ⟨r, by simp [scanByAttributesAux, hby, hr]⟩

theorem scanByAux_skip_nonby {A : List NMeta}
    (h : ∀ x ∈ A, attrPathIsBy x = false) :
    ∀ acc, scanByAttributesAux acc A = .ok acc := by
  induction A with
  | nil => intro acc; rfl
  | cons a as ih =>
      intro acc
      have ha := h a (List.mem_cons_self _ _)
      simp only [scanByAttributesAux, ha, Bool.false_eq_true, if_false]
      exact ih (fun x hx => h x (List.mem_cons_of_mem _ hx)) acc

/-! ## Smoke tests -/

example : validate [ByToken.Css "a", ByToken.Wait ⟨30000, 500⟩] = .ok () := by decide

example :
    singleCompile [ByToken.Css "a"] =
      .ok (.new_single_opts (.Css "a") ⟨"None", "None", .NoWait⟩) := by decide

example :
    multiCompile [ByToken.Multi, ByToken.Css "a", ByToken.AllowEmpty] =
      .ok (.new_allow_empty_opts (.Css "a") ⟨"None", "None", .NoWait⟩) := by decide

example :
    is_multi_resolver (.mk false [.mk "ElementResolver"
      (.angleBracketed [.typeArg (.path (.mk false [.mk "Vec" .noArgs]))])]) = true := by
  decide

example : resolutionMode [] c3Path = .Multi ∧ claimedResolutionMode [] c3Path = .Single := by
  constructor <;> decide

/-! ## Claim C4 -/

/-- C4: for every valid attribute list holding exactly one selector token and
nothing else, the Single compiler emits `new_single_opts` whose options leave
`ignore_errors`, `description` and `wait` unset and which carries no `first`
modifier; such a list also passes the validator. -/
theorem claim_C4_bare_selector_single_opts {s : ByToken} {q : ByQuote}
    (hq : quoteOf s = some q) :
    validate [s] = .ok () ∧
      singleCompile [s] = .ok (.new_single_opts q ⟨"None", "None", .NoWait⟩) := by
  cases s <;>
    first
      | (injection hq with h; subst h; exact ⟨rfl, rfl⟩)
      | exact Option.noConfusion hq

/-- Witness for C4 at the bag of `css = "a"`. -/
theorem claim_C4_witness :
    validate [ByToken.Css "a"] = .ok () ∧
      singleCompile [ByToken.Css "a"] =
        .ok (.new_single_opts (.Css "a") ⟨"None", "None", .NoWait⟩) :=
  claim_C4_bare_selector_single_opts rfl

/-! ## Claim C3 -/

/-- Counterexample to C3 as stated: on `ElementResolver<Vec<i32>, i32>` (two
generic type arguments, the first spelling `Vec`) the source classifies
Multi, while the claim's rule — which requires the *sole* generic type
argument to spell the growable-sequence type — classifies Single. -/
theorem claim_C3_counterexample :
    resolutionMode [] c3Path = .Multi ∧ claimedResolutionMode [] c3Path = .Single :=
  ⟨by decide, by decide⟩

/-- C3 (amended): the resolution mode is decided in the claimed order, with
step (3) reading "the *first* generic argument that is a type path spells
the growable-sequence type as exactly one of `Vec`, `vec::Vec`,
`std::vec::Vec`, `alloc::vec::Vec`", for every type path whose identifiers
are colon-free (as every real Rust path is). -/
theorem claim_C3_mode_decision_amended (bag : List ByToken) (p : TPath)
    (hwf : wfPathForClassify p) :
    resolutionMode bag p = amendedResolutionMode bag p :=
  resolutionMode_eq_amended bag p hwf

/-- Witness for C3 (amended) at `ElementResolver<std::vec::Vec<i32>>`. -/
theorem claim_C3_witness :
    wfPathForClassify c3WitnessPath ∧
      resolutionMode [] c3WitnessPath = amendedResolutionMode [] c3WitnessPath ∧
      resolutionMode [] c3WitnessPath = .Multi :=
  ⟨by decide, claim_C3_mode_decision_amended [] c3WitnessPath (by decide), by decide⟩

/-! ## Claim C8 -/

/-- Counterexample to C8's last clause: the bag `[ignore_errors]` is accepted
by the validator, contains no CustomFn token, and still reaches the
zero-selector panic branch of `take_quote` (also through the Single
compiler), so that branch is reachable without a CustomFn token. -/
theorem claim_C8_counterexample :
    validate [ByToken.IgnoreErrors] = .ok () ∧
      [ByToken.IgnoreErrors].any isCustom = false ∧
      take_quote [ByToken.IgnoreErrors] = .error .noSelectorFound ∧
      singleResolverArgsFrom [ByToken.IgnoreErrors] = .error .noSelectorFound :=
  ⟨by decide, by decide, by decide, by decide⟩

/-- C8 (amended): `take_quote` removes and returns the selector token exactly
when exactly one selector token is in the bag, panicking on zero or more
than one; on every validator-accepted bag the more-than-one branch is
unreachable, while the zero branch is reached exactly when the bag holds no
selector — which can happen with or without a CustomFn token. -/
theorem claim_C8_take_quote_amended (ts : List ByToken) :
    (∀ (q : ByQuote) (l : List ByToken),
        take_quote ts = .ok (q, l) ↔
          (ts.filterMap quoteOf = [q] ∧ l = ts.filter (fun t => (quoteOf t).isNone))) ∧
      (take_quote ts = .error .noSelectorFound ↔ ts.countP isSelector = 0) ∧
      (validate ts = .ok () → take_quote ts ≠ .error .multipleSelectorsNotSupported) :=
  ⟨fun _ _ => take_quote_ok_iff, take_quote_noSel_iff,
    fun hv => take_quote_ne_multi (validate_ok_nodup hv)⟩

/-- Witness for C8 (amended) at the bag of `css = "x"`. -/
theorem claim_C8_witness :
    take_quote [ByToken.Css "x"] = .ok (.Css "x", []) ∧
      take_quote [ByToken.Css "x"] ≠ .error .multipleSelectorsNotSupported :=
  ⟨((claim_C8_take_quote_amended [ByToken.Css "x"]).1 _ _).mpr ⟨by decide, by decide⟩,
    (claim_C8_take_quote_amended [ByToken.Css "x"]).2.2 (by decide)⟩

/-! ## Claim C10 -/

/-- C10: over the attribute loop, each `by` attribute is parsed into its own
fresh bag and the last successfully parsed one overwrites the previous; when
every earlier `by` attribute parses and nothing after the last `by`
attribute is a `by` attribute, the scan returns exactly the bag of the last
`by` attribute — earlier bags are discarded, never merged. -/
theorem claim_C10_last_attribute_wins (pre post : List NMeta) (a : NMeta)
    (b : List ByToken)
    (hpre : ∀ x ∈ pre, attrPathIsBy x = true → ∃ bx, byTokensTryFrom x = .ok bx)
    (ha : attrPathIsBy a = true) (hb : byTokensTryFrom a = .ok b)
    (hpost : ∀ x ∈ post, attrPathIsBy x = false) :
    scanByAttributes (pre ++ a :: post) = .ok (some b) := by
  obtain ⟨r, hr⟩ := scanByAux_ok_of_all hpre none
  unfold scanByAttributes
  rw [scanByAux_append hr]
  simp only [scanByAttributesAux, ha, hb, if_true]
  exact scanByAux_skip_nonby hpost (some b)

/-- Witness for C10 at `#[by(css = "a")]` followed by `#[by(css = "b")]`. -/
theorem claim_C10_witness :
    scanByAttributes [c10AttrA, c10AttrB] = .ok (some [ByToken.Css "b"]) :=
  claim_C10_last_attribute_wins [c10AttrA] [] c10AttrB [ByToken.Css "b"]
    (by
      intro x hx hby
      rcases List.mem_singleton.mp hx with rfl
      exact ⟨[ByToken.Css "a"], by decide⟩)
    (by decide) (by decide)
    (by intro x hx; cases hx)

/-! ## Claim C2 -/

/-- C2: every validator-accepted bag holding both a CustomFn token and a
selector token makes both Resolver Argument Compiler variants fail the
end-of-compilation emptiness assertion with the same nonempty leftover, and
the selector is never consumed on the custom path (it is in the leftover). -/
theorem claim_C2_custom_with_selector_leftover (ts : List ByToken) (f : String)
    (hv : validate ts = .ok ()) (hf : ByToken.CustomFn f ∈ ts)
    (hsel : ∃ s ∈ ts, isSelector s = true) :
    ∃ l, l ≠ [] ∧
      singleResolverArgsFrom ts = .error (.unrecognisedArgs l) ∧
      multiResolverArgsFrom ts = .error (.unrecognisedArgs l) ∧
      ∀ s ∈ ts, isSelector s = true → s ∈ l := by
  obtain ⟨s0, hs0, hs0sel⟩ := hsel
  have hcsome := take_custom_isSome hf
  rcases hc : take_custom ts with ⟨o, l⟩
  rw [hc] at hcsome
  obtain ⟨f', ho⟩ := Option.isSome_iff_exists.mp hcsome
  subst ho
  have hkeep : ∀ s ∈ ts, isSelector s = true → s ∈ l := by
    intro s hs hssel
    have := mem_take_custom_of_selector hs hssel
    rw [hc] at this
    exact this
  have hmem0 : s0 ∈ l := hkeep s0 hs0 hs0sel
  have hne : l ≠ [] := List.ne_nil_of_mem hmem0
  have hEmp : l.isEmpty = false := isEmpty_false_of_mem hmem0
  refine ⟨l, hne, ?_, ?_, hkeep⟩
  · rw [singleFrom_custom_shape hc, hEmp]
    rfl
  · have hnomulti : ∀ t ∈ ts, t.get_unique_type ≠ "multi" :=
      validate_ok_no_conflict hv hf (custom_disallowed_mem f (by decide))
    rw [multiFrom_custom_shape (take_multi_eq_none hnomulti) hc, hEmp]
    rfl

/-- Witness for C2 at the bag of `custom = "f", css = "a"`. -/
theorem claim_C2_witness :
    validate [ByToken.CustomFn "f", ByToken.Css "a"] = .ok () ∧
      ∃ l, l ≠ [] ∧
        singleResolverArgsFrom [ByToken.CustomFn "f", ByToken.Css "a"]
          = .error (.unrecognisedArgs l) ∧
        multiResolverArgsFrom [ByToken.CustomFn "f", ByToken.Css "a"]
          = .error (.unrecognisedArgs l) ∧
        ∀ s ∈ [ByToken.CustomFn "f", ByToken.Css "a"], isSelector s = true → s ∈ l :=
  ⟨by decide,
    claim_C2_custom_with_selector_leftover _ "f" (by decide) (by decide)
      ⟨ByToken.Css "a", by decide, by decide⟩⟩

/-! ## Claim C9 -/

/-- C9: on a validator-accepted bag with a selector, an allow_empty flag makes
the Single compiler fail its emptiness assertion with allow_empty in the
leftover, and a first flag makes the Multi compiler fail its emptiness
assertion with first in the leftover — each variant consumes only its own
mode's modifier flag. -/
theorem claim_C9_mode_mismatch_flags (ts : List ByToken)
    (hv : validate ts = .ok ()) (hsel : ∃ s ∈ ts, isSelector s = true) :
    (ByToken.AllowEmpty ∈ ts →
        ∃ l, singleResolverArgsFrom ts = .error (.unrecognisedArgs l) ∧
          ByToken.AllowEmpty ∈ l) ∧
      (ByToken.First ∈ ts →
        ∃ l, multiResolverArgsFrom ts = .error (.unrecognisedArgs l) ∧
          ByToken.First ∈ l) := by
  obtain ⟨s0, hs0, hs0sel⟩ := hsel
  have hnd := validate_ok_nodup hv
  constructor
  · intro hae
    have hnocustom : ∀ t ∈ ts, t.get_unique_type ≠ "custom" :=
      validate_ok_no_conflict hv hae (by decide)
    have hnc : take_custom ts = (none, ts) := take_custom_eq_none hnocustom
    obtain ⟨q, htq⟩ := take_quote_ok_of_mem hnd hs0 hs0sel
    have h2 : ByToken.AllowEmpty ∈ ts.filter (fun t => (quoteOf t).isNone) :=
      mem_quote_rest hae rfl
    have h3 : ByToken.AllowEmpty ∈
        (take_first (ts.filter (fun t => (quoteOf t).isNone))).2 :=
      take_one_mem_snd h2 rfl
    have h4 : ByToken.AllowEmpty ∈
        (take_ignore_errors (take_first (ts.filter (fun t => (quoteOf t).isNone))).2).2 :=
      take_one_mem_snd h3 rfl
    have h5 : ByToken.AllowEmpty ∈
        (take_description (take_ignore_errors
          (take_first (ts.filter (fun t => (quoteOf t).isNone))).2).2).2 :=
      take_one_mem_snd h4 rfl
    have h6 : ByToken.AllowEmpty ∈
        (take_wait_options (take_description (take_ignore_errors
          (take_first (ts.filter (fun t => (quoteOf t).isNone))).2).2).2).2 :=
      take_one_mem_snd h5 rfl
    refine ⟨_, ?_, h6⟩
    rw [singleFrom_opts_shape hnc htq, isEmpty_false_of_mem h6]
    rfl
  · intro hfst
    have hnomulti : ∀ t ∈ ts, t.get_unique_type ≠ "multi" :=
      validate_ok_no_conflict hv hfst (by decide)
    have hnocustom : ∀ t ∈ ts, t.get_unique_type ≠ "custom" :=
      validate_ok_no_conflict hv hfst (by decide)
    have hm : take_multi ts = (none, ts) := take_multi_eq_none hnomulti
    have hnc : take_custom ts = (none, ts) := take_custom_eq_none hnocustom
    obtain ⟨q, htq⟩ := take_quote_ok_of_mem hnd hs0 hs0sel
    have h2 : ByToken.First ∈ ts.filter (fun t => (quoteOf t).isNone) :=
      mem_quote_rest hfst rfl
    have h3 : ByToken.First ∈
        (take_allow_empty (ts.filter (fun t => (quoteOf t).isNone))).2 :=
      take_one_mem_snd h2 rfl
    have h4 : ByToken.First ∈
        (take_ignore_errors (take_allow_empty
          (ts.filter (fun t => (quoteOf t).isNone))).2).2 :=
      take_one_mem_snd h3 rfl
    have h5 : ByToken.First ∈
        (take_description (take_ignore_errors (take_allow_empty
          (ts.filter (fun t => (quoteOf t).isNone))).2).2).2 :=
      take_one_mem_snd h4 rfl
    have h6 : ByToken.First ∈
        (take_wait_options (take_description (take_ignore_errors (take_allow_empty
          (ts.filter (fun t => (quoteOf t).isNone))).2).2).2).2 :=
      take_one_mem_snd h5 rfl
    refine ⟨_, ?_, h6⟩
    rw [multiFrom_opts_shape hm hnc htq, isEmpty_false_of_mem h6]
    rfl

/-- Witness for C9 at the bag of `css = "a", allow_empty` (Single variant). -/
theorem claim_C9_witness :
    validate [ByToken.Css "a", ByToken.AllowEmpty] = .ok () ∧
      ∃ l, singleResolverArgsFrom [ByToken.Css "a", ByToken.AllowEmpty]
          = .error (.unrecognisedArgs l) ∧ ByToken.AllowEmpty ∈ l :=
  ⟨by decide,
    (claim_C9_mode_mismatch_flags _ (by decide)
      ⟨ByToken.Css "a", by decide, by decide⟩).1 (by decide)⟩

/-! ## Claim C1 -/

/-- C1 (code bug): the fragment `wait(timeout_ms = 30000, interval_ms = 500)`
parses to the Wait token with exactly those values, the validator accepts
the bag, and the compiler's argument stage carries the values unchanged into
the Opts record — but emission then panics: `format_ident!("{timeout_ms}")`
calls `proc_macro2::Ident::new` on the numeric text "30000", which is not a
valid identifier, so the macro aborts (in both variants) and the claimed
construction expression is never emitted. -/
theorem claim_C1_wait_emission_panics :
    byTokenTryFrom (waitFrag 30000 500) = .ok (.Wait ⟨30000, 500⟩) ∧
      validate [ByToken.Css "a", ByToken.Wait ⟨30000, 500⟩] = .ok () ∧
      singleResolverArgsFrom [ByToken.Css "a", ByToken.Wait ⟨30000, 500⟩]
        = .ok (.Opts (.Css "a") none none none (some ⟨30000, 500⟩)) ∧
      singleCompile [ByToken.Css "a", ByToken.Wait ⟨30000, 500⟩]
        = .error (.invalidIdent "30000") ∧
      multiCompile [ByToken.Css "a", ByToken.Wait ⟨30000, 500⟩]
        = .error (.invalidIdent "30000") ∧
      is_valid_ident "30000" = false :=
  ⟨by decide, by decide, by decide, by decide, by decide, by decide⟩

/-! ## Claim C5 -/

theorem countP_cat_le_one {l : List ByToken} (hnd : (uniqueTypes l).Nodup)
    (c : String) : l.countP (fun t => t.get_unique_type == c) ≤ 1 := by
  induction l with
  | nil => simp
  | cons t ts ih =>
      simp only [uniqueTypes, List.map_cons, List.nodup_cons] at hnd
      rw [List.countP_cons]
      cases hsel : (t.get_unique_type == c) with
      | true =>
          have ht : t.get_unique_type = c := eq_of_beq hsel
          have htail : ts.countP (fun t => t.get_unique_type == c) = 0 := by
            rw [List.countP_eq_zero]
            intro x hx hselx
            have hx' : x.get_unique_type = c := eq_of_beq hselx
            apply hnd.1
            rw [ht, ← hx']
            exact List.mem_map_of_mem _ hx
          simp [hsel, htail]
      | false =>
          have hrec := ih (by simpa [uniqueTypes] using hnd.2)
          simpa using hrec

/-- Counterexample to C5 as stated: with the wait fragment before the custom
token — `#[by(wait(timeout_ms = 30000, interval_ms = 500), custom = "f")]` —
validation fails with the categories paired in the other order,
"cannot specify 'wait' with 'custom'". -/
theorem claim_C5_counterexample :
    byTokensTryFrom c5Attr
        = .error (.validateFail "cannot specify \x27wait\x27 with \x27custom\x27") ∧
      validate [ByToken.Wait ⟨30000, 500⟩, ByToken.CustomFn "f"]
        = .error "cannot specify \x27wait\x27 with \x27custom\x27" ∧
      "cannot specify \x27wait\x27 with \x27custom\x27"
        ≠ "cannot specify \x27custom\x27 with \x27wait\x27" :=
  ⟨by decide, by decide, by decide⟩

/-- C5 (amended): every bag combining custom with wait fails validation; the
message is "cannot specify 'custom' with 'wait'" when the custom token
precedes the wait token and no other duplicate or conflicting category is
involved; with the wait token first, the counterexample shows the message
pairs the categories in the other order. -/
theorem claim_C5_custom_wait_conflict_amended :
    (∀ (ts : List ByToken) (f : String) (w : WaitOptions),
        ByToken.CustomFn f ∈ ts → ByToken.Wait w ∈ ts →
          ∃ msg, validate ts = .error msg) ∧
      (∀ (l1 l2 l3 : List ByToken) (f : String) (w : WaitOptions),
        (uniqueTypes (l1 ++ ByToken.CustomFn f :: l2 ++ ByToken.Wait w :: l3)).Nodup →
        (∀ t ∈ l1 ++ ByToken.CustomFn f :: l2 ++ ByToken.Wait w :: l3,
           t.get_unique_type = "selector" ∨ t.get_unique_type = "custom" ∨
             t.get_unique_type = "wait") →
        validate (l1 ++ ByToken.CustomFn f :: l2 ++ ByToken.Wait w :: l3)
          = .error "cannot specify \x27custom\x27 with \x27wait\x27") := by
  constructor
  · intro ts f w hf hw
    unfold validate
    cases hc : collectUnique ts [] with
    | error e => exact ⟨e, rfl⟩
    | ok s =>
        show ∃ msg, checkDisallowed s ts = .error msg
        cases hchk : checkDisallowed s ts with
        | error e => exact ⟨e, rfl⟩
        | ok u =>
            exfalso
            have hno := checkDisallowed_ok_iff.mp hchk (ByToken.CustomFn f) hf
              "wait" (custom_disallowed_mem f (by decide))
            apply hno
            rw [collectUnique_ok_mem hc "wait"]
            exact .inr (List.mem_map_of_mem _ hw)
  · intro l1 l2 l3 f w hnd hcats
    have hwmem : ByToken.Wait w ∈ l1 ++ ByToken.CustomFn f :: l2 ++ ByToken.Wait w :: l3 :=
      List.mem_append.mpr (.inr (List.mem_cons_self _ _))
    have hassoc : l1 ++ ByToken.CustomFn f :: l2 ++ ByToken.Wait w :: l3
        = l1 ++ (ByToken.CustomFn f :: (l2 ++ ByToken.Wait w :: l3)) := by
      simp [List.append_assoc]
    obtain ⟨s, hs⟩ := collectUnique_ok_of hnd (fun c _ => List.not_mem_nil c)
    have hmem := collectUnique_ok_mem hs
    have hwaitmem : "wait" ∈ s := by
      rw [hmem]
      exact .inr (List.mem_map_of_mem _ hwmem)
    have hnotin : ∀ c : String, c ≠ "selector" → c ≠ "custom" → c ≠ "wait" → c ∉ s := by
      intro c h1 h2 h3 hcs
      rcases (hmem c).mp hcs with h0 | h0
      · exact List.not_mem_nil c h0
      · obtain ⟨t, ht, rfl⟩ := List.mem_map.mp h0
        rcases hcats t ht with h | h | h
        · exact h1 h
        · exact h2 h
        · exact h3 h
    have hnd' := hnd
    rw [hassoc] at hnd'
    have hdisj := (List.nodup_append.mp (by
      simpa only [uniqueTypes, List.map_append] using hnd')).2.2
    have hl1sel : ∀ t ∈ l1, t.get_unique_type = "selector" := by
      intro t ht
      have htmem : t ∈ l1 ++ ByToken.CustomFn f :: l2 ++ ByToken.Wait w :: l3 :=
        List.mem_append.mpr (.inl (List.mem_append.mpr (.inl ht)))
      rcases hcats t htmem with h | h | h
      · exact h
      · exfalso
        have h1 : t.get_unique_type ∈ List.map ByToken.get_unique_type l1 :=
          List.mem_map_of_mem _ ht
        have h2 : t.get_unique_type ∈ List.map ByToken.get_unique_type
            (ByToken.CustomFn f :: (l2 ++ ByToken.Wait w :: l3)) := by
          rw [h]
          exact List.mem_map_of_mem _ (List.mem_cons_self _ _)
        exact hdisj h1 h2
      · exfalso
        have h1 : t.get_unique_type ∈ List.map ByToken.get_unique_type l1 :=
          List.mem_map_of_mem _ ht
        have h2 : t.get_unique_type ∈ List.map ByToken.get_unique_type
            (ByToken.CustomFn f :: (l2 ++ ByToken.Wait w :: l3)) := by
          rw [h]
          exact List.mem_map_of_mem _ (List.mem_cons_of_mem _
            (List.mem_append.mpr (.inr (List.mem_cons_self _ _))))
        exact hdisj h1 h2
    have hl1ok : checkDisallowed s l1 = .ok () := by
      rw [checkDisallowed_ok_iff]
      intro t ht d hd
      rw [selector_disallowed_nil (hl1sel t ht)] at hd
      cases hd
    have e1 : (decide ("multi" ∈ s)) = false :=
      decide_eq_false (hnotin "multi" (by decide) (by decide) (by decide))
    have e2 : (decide ("first" ∈ s)) = false :=
      decide_eq_false (hnotin "first" (by decide) (by decide) (by decide))
    have e3 : (decide ("ignore_errors" ∈ s)) = false :=
      decide_eq_false (hnotin "ignore_errors" (by decide) (by decide) (by decide))
    have e4 : (decide ("description" ∈ s)) = false :=
      decide_eq_false (hnotin "description" (by decide) (by decide) (by decide))
    have e5 : (decide ("wait" ∈ s)) = true := decide_eq_true hwaitmem
    have hfind : (ByToken.CustomFn f).get_disallowed_types.find?
        (fun d => decide (d ∈ s)) = some "wait" := by
      show (["multi", "first", "ignore_errors", "description", "wait",
        "allow_empty"] : List String).find? (fun d => decide (d ∈ s)) = some "wait"
      simp only [List.find?, e1, e2, e3, e4, e5]
    unfold validate
    rw [hs]
    show checkDisallowed s (l1 ++ ByToken.CustomFn f :: l2 ++ ByToken.Wait w :: l3)
      = Except.error "cannot specify \x27custom\x27 with \x27wait\x27"
    rw [hassoc, checkDisallowed_append hl1ok]
    simp only [checkDisallowed, hfind]
    show Except.error (conflictMsg "custom" "wait") = _
    decide

/-- Witness for C5 (amended) at the bag of `css = "a", custom = "f",
wait(timeout_ms = 1, interval_ms = 2)`. -/
theorem claim_C5_witness :
    validate [ByToken.Css "a", ByToken.CustomFn "f", ByToken.Wait ⟨1, 2⟩]
      = .error "cannot specify \x27custom\x27 with \x27wait\x27" :=
  claim_C5_custom_wait_conflict_amended.2 [ByToken.Css "a"] [] [] "f" ⟨1, 2⟩
    (by decide) (by decide)

/-! ## Claim C6 -/

/-- Counterexample to C6 as stated: a bag declaring css twice ("two selector
tokens") but with an earlier duplicated category fails with the duplicate
error naming that earlier category ("multi"), not "selector". -/
theorem claim_C6_counterexample :
    validate [ByToken.Multi, ByToken.Multi, ByToken.Css "a", ByToken.Css "b"]
        = .error "duplicate token \x27multi\x27 (cannot specify multiple)" ∧
      [ByToken.Multi, ByToken.Multi, ByToken.Css "a",
        ByToken.Css "b"].countP isSelector = 2 ∧
      "duplicate token \x27multi\x27 (cannot specify multiple)"
        ≠ "duplicate token \x27selector\x27 (cannot specify multiple)" :=
  ⟨by decide, by decide, by decide⟩

/-- C6 (amended): any two selector tokens make validation fail with a
duplicate-token error; the error names the category "selector" provided no
category is already duplicated among the tokens up to and including the
first selector (in particular whenever the selector pair is the only
duplicate). -/
theorem claim_C6_duplicate_selector_amended :
    (∀ (l1 l2 l3 : List ByToken) (s1 s2 : ByToken),
        isSelector s1 = true → isSelector s2 = true →
          ∃ c, validate (l1 ++ s1 :: l2 ++ s2 :: l3) = .error (dupMsg c)) ∧
      (∀ (l1 l2 l3 : List ByToken) (s1 s2 : ByToken),
        isSelector s1 = true → isSelector s2 = true →
        (uniqueTypes (l1 ++ s1 :: l2)).Nodup →
          validate (l1 ++ s1 :: l2 ++ s2 :: l3)
            = .error "duplicate token \x27selector\x27 (cannot specify multiple)") := by
  constructor
  · intro l1 l2 l3 s1 s2 hs1 hs2
    have hcount : 2 ≤ (l1 ++ s1 :: l2 ++ s2 :: l3).countP isSelector := by
      simp only [List.countP_append, List.countP_cons, hs1, hs2]
      simp
      omega
    have hnotnd : ¬ (uniqueTypes (l1 ++ s1 :: l2 ++ s2 :: l3)).Nodup := fun hnd => by
      have := countP_selector_le_one hnd
      omega
    rcases collectUnique_err_shape (l1 ++ s1 :: l2 ++ s2 :: l3) [] with ⟨s, hs⟩ | ⟨c, hc⟩
    · exact absurd (collectUnique_ok_nodup hs).1 hnotnd
    · refine ⟨c, ?_⟩
      unfold validate
      rw [hc]
  · intro l1 l2 l3 s1 s2 hs1 hs2 hndpre
    have hs1cat : s1.get_unique_type = "selector" := eq_of_beq hs1
    have hs2cat : s2.get_unique_type = "selector" := eq_of_beq hs2
    obtain ⟨s, hs⟩ := collectUnique_ok_of hndpre (fun c _ => List.not_mem_nil c)
    have hmem := collectUnique_ok_mem hs
    have hselmem : "selector" ∈ s := by
      rw [hmem]
      refine .inr ?_
      have hmem1 : s1 ∈ l1 ++ s1 :: l2 :=
        List.mem_append.mpr (.inr (List.mem_cons_self _ _))
      have h1 := List.mem_map_of_mem ByToken.get_unique_type hmem1
      rwa [hs1cat] at h1
    have hstep : collectUnique (s2 :: l3) s = .error (dupMsg "selector") := by
      show (if s2.get_unique_type ∈ s then Except.error (dupMsg s2.get_unique_type)
        else collectUnique l3 (s2.get_unique_type :: s)) = _
      rw [hs2cat, if_pos hselmem]
    unfold validate
    rw [collectUnique_append hs, hstep]
    show Except.error (dupMsg "selector") = _
    decide

/-- Witness for C6 (amended) at the bag of `css = "a", css = "b"`. -/
theorem claim_C6_witness :
    validate [ByToken.Css "a", ByToken.Css "b"]
      = .error "duplicate token \x27selector\x27 (cannot specify multiple)" :=
  claim_C6_duplicate_selector_amended.2 [] [] [] (ByToken.Css "a") (ByToken.Css "b")
    (by decide) (by decide) (by decide)


/-! ## Claim C7 -/

/-- Counterexample to C7 as stated: in
`wait(timeout_ms = 4294967296, interval_ms = 500)` both keys are supplied
exactly once each, yet no Wait token is produced — parsing aborts because
the value does not fit in u32 (`base10_parse::<u32>` fails). -/
theorem claim_C7_counterexample :
    waitKeyCount "timeout_ms" c7Args = 1 ∧
      waitKeyCount "interval_ms" c7Args = 1 ∧
      c7Args.length = 2 ∧
      byTokenTryFrom (.list (identPath "wait") c7Args) = .error .invalidTimeoutValue :=
  ⟨by decide, by decide, by decide, by decide⟩

/-- C7 (amended): parsing a `wait(...)` fragment produces a Wait token if and
only if `timeout_ms` and `interval_ms` are each supplied exactly once (in
either order) with integer values that fit in u32 and nothing else appears;
every other shape — another key, a repeated key, a missing key, a non-integer
value, or an out-of-range value — is a fatal abort inside token parsing,
before the Constraint Validator runs. -/
theorem claim_C7_wait_parse_amended (args : List NMeta) (tok : ByToken) :
    byTokenTryFrom (.list (identPath "wait") args) = .ok tok ↔
      ∃ t i, t < 4294967296 ∧ i < 4294967296 ∧ tok = .Wait ⟨t, i⟩ ∧
        (args = [.nameValue (identPath "timeout_ms") (.int t),
                 .nameValue (identPath "interval_ms") (.int i)] ∨
         args = [.nameValue (identPath "interval_ms") (.int i),
                 .nameValue (identPath "timeout_ms") (.int t)]) := by
  have hwid : (identPath "wait").is_ident "wait" = true := by decide
  constructor
  · intro h
    simp only [byTokenTryFrom, hwid, if_true] at h
    cases hw : parseWaitArgs args none none with
    | error e => rw [hw] at h; cases h
    | ok pair =>
        rw [hw] at h
        rcases pair with ⟨ot, oi⟩
        cases ot with
        | none => simp at h
        | some t =>
            cases oi with
            | none => simp at h
            | some i =>
                have h' : (Except.ok (ByToken.Wait ⟨t, i⟩) : Except ParseAbort ByToken)
                    = .ok tok := h
                injection h' with h2
                subst h2
                cases args with
                | nil => simp [parseWaitArgs] at hw
                | cons a as =>
                    cases a with
                    | nameValue k l =>
                        cases l with
                        | int v =>
                            by_cases hk1 : k.is_ident "timeout_ms" = true
                            · simp only [parseWaitArgs, hk1, if_true] at hw
                              by_cases hv : v < 4294967296
                              · rw [if_pos hv] at hw
                                cases as with
                                | nil => simp [parseWaitArgs] at hw
                                | cons b bs =>
                                    cases b with
                                    | nameValue k' l' =>
                                        cases l' with
                                        | int v' =>
                                            by_cases hk'1 : k'.is_ident "timeout_ms" = true
                                            · simp [parseWaitArgs, hk'1] at hw
                                            · by_cases hk'2 :
                                                  k'.is_ident "interval_ms" = true
                                              · simp only [parseWaitArgs, hk'1, hk'2,
                                                  if_true, if_false,
                                                  Bool.false_eq_true] at hw
                                                by_cases hv' : v' < 4294967296
                                                · rw [if_pos hv'] at hw
                                                  obtain ⟨hbs, hr⟩ := parseWaitArgs_full hw
                                                  injection hr with hr1 hr2
                                                  injection hr1 with hr1
                                                  injection hr2 with hr2
                                                  subst hr1
                                                  subst hr2
                                                  subst hbs
                                                  exact ⟨t, i, hv, hv', rfl,
                                                    .inl (by
                                                      rw [is_ident_eq hk1,
                                                        is_ident_eq hk'2])⟩
                                                · rw [if_neg hv'] at hw
                                                  cases hw
                                              · simp [parseWaitArgs, hk'1, hk'2] at hw
                                        | str v' => simp [parseWaitArgs] at hw
                                        | other => simp [parseWaitArgs] at hw
                                    | path p => simp [parseWaitArgs] at hw
                                    | list p n => simp [parseWaitArgs] at hw
                                    | lit v' => simp [parseWaitArgs] at hw
                              · rw [if_neg hv] at hw
                                cases hw
                            · by_cases hk2 : k.is_ident "interval_ms" = true
                              · simp only [parseWaitArgs, hk1, hk2, if_true, if_false,
                                  Bool.false_eq_true] at hw
                                by_cases hv : v < 4294967296
                                · rw [if_pos hv] at hw
                                  cases as with
                                  | nil => simp [parseWaitArgs] at hw
                                  | cons b bs =>
                                      cases b with
                                      | nameValue k' l' =>
                                          cases l' with
                                          | int v' =>
                                              by_cases hk'1 :
                                                  k'.is_ident "timeout_ms" = true
                                              · simp only [parseWaitArgs, hk'1,
                                                  if_true] at hw
                                                by_cases hv' : v' < 4294967296
                                                · rw [if_pos hv'] at hw
                                                  obtain ⟨hbs, hr⟩ := parseWaitArgs_full hw
                                                  injection hr with hr1 hr2
                                                  injection hr1 with hr1
                                                  injection hr2 with hr2
                                                  subst hr1
                                                  subst hr2
                                                  subst hbs
                                                  exact ⟨t, i, hv', hv, rfl,
                                                    .inr (by
                                                      rw [is_ident_eq hk2,
                                                        is_ident_eq hk'1])⟩
                                                · rw [if_neg hv'] at hw
                                                  cases hw
                                              · by_cases hk'2 :
                                                    k'.is_ident "interval_ms" = true
                                                · simp [parseWaitArgs, hk'1, hk'2] at hw
                                                · simp [parseWaitArgs, hk'1, hk'2] at hw
                                          | str v' => simp [parseWaitArgs] at hw
                                          | other => simp [parseWaitArgs] at hw
                                      | path p => simp [parseWaitArgs] at hw
                                      | list p n => simp [parseWaitArgs] at hw
                                      | lit v' => simp [parseWaitArgs] at hw
                                · rw [if_neg hv] at hw
                                  cases hw
                              · simp [parseWaitArgs, hk1, hk2] at hw
                        | str v => simp [parseWaitArgs] at hw
                        | other => simp [parseWaitArgs] at hw
                    | path p => simp [parseWaitArgs] at hw
                    | list p n => simp [parseWaitArgs] at hw
                    | lit v => simp [parseWaitArgs] at hw
  · rintro ⟨t, i, ht, hi, rfl, rfl | rfl⟩
    · have htm : (identPath "timeout_ms").is_ident "timeout_ms" = true := by decide
      have htm2 : (identPath "timeout_ms").is_ident "interval_ms" = false := by decide
      have him : (identPath "interval_ms").is_ident "interval_ms" = true := by decide
      have him2 : (identPath "interval_ms").is_ident "timeout_ms" = false := by decide
      simp [byTokenTryFrom, hwid, parseWaitArgs, htm, htm2, him, him2, ht, hi]
    · have htm : (identPath "timeout_ms").is_ident "timeout_ms" = true := by decide
      have htm2 : (identPath "timeout_ms").is_ident "interval_ms" = false := by decide
      have him : (identPath "interval_ms").is_ident "interval_ms" = true := by decide
      have him2 : (identPath "interval_ms").is_ident "timeout_ms" = false := by decide
      simp [byTokenTryFrom, hwid, parseWaitArgs, htm, htm2, him, him2, ht, hi]

/-- Witness for C7 (amended) at
`wait(interval_ms = 250, timeout_ms = 7000)` (reversed key order). -/
theorem claim_C7_witness :
    byTokenTryFrom (.list (identPath "wait")
        [.nameValue (identPath "interval_ms") (.int 250),
         .nameValue (identPath "timeout_ms") (.int 7000)]) = .ok (.Wait ⟨7000, 250⟩) :=
  (claim_C7_wait_parse_amended _ _).mpr
    ⟨7000, 250, by decide, by decide, rfl, .inr rfl⟩
